import Mathlib

/-!
Shallow embedding of the OpenRAG core: `text_chunking.py`, `query.py`,
`chunk_vectorization.py` and the global-indexing loop of `main.py`.

Modelling conventions:
* Python strings are `List Char` (`Str`), so slicing, indexing and `' '.join`
  are exact list operations;
* Python ints are `Int` (or `Nat` where the source value is always a length);
* the external tiktoken tokenizer behind `num_tokens_in_string` is modelled as
  an explicit parameter `ntok : Str → Nat` threaded through the chunking
  functions (the chunking control flow uses nothing about it beyond its type);
* a chunked dictionary `{chunk_1: …, chunk_2: …}` produced by
  `chunk_sentences` is modelled as the positional list of its values together
  with the keyed lookup `chunkDictGet` (key `chunk_k` is position `k - 1`,
  and `chunk_0` or a key past the end is absent, as in a Python dict);
* Python floor division `//` is `Int.fdiv`, and negative-index slices follow
  Python semantics (`pySliceFrom`/`pySliceTo`).
-/

namespace OpenRAG

abbrev Str := List Char

/-- Whitespace characters recognised by Python's `\s` and `str.strip`
(ASCII subset; the embedded texts contain no exotic Unicode spaces). -/
def isPySpace (c : Char) : Bool :=
  c = ' ' || c = '\t' || c = '\n' || c = '\r' || c = '\x0b' || c = '\x0c'

/-- Word characters recognised by Python's `\w` (ASCII subset). -/
def isPyWord (c : Char) : Bool :=
  c.isAlphanum || c = '_'

/-- Python `str.strip()`: drop leading and trailing whitespace. -/
def pyStrip (s : Str) : Str :=
  ((s.dropWhile isPySpace).reverse.dropWhile isPySpace).reverse

/-- Python `' '.join(chunks)`. -/
def joinSp (chunks : List Str) : Str := List.intercalate [' '] chunks

/-- Python slice `s[i:]`, including negative-index semantics:
for `i < 0` the effective start is `len(s) + i` clamped at `0`. -/
def pySliceFrom (s : Str) (i : Int) : Str :=
  if 0 ≤ i then s.drop i.toNat else s.drop ((s.length : Int) + i).toNat

/-- Python slice `s[:i]`, including negative-index semantics. -/
def pySliceTo (s : Str) (i : Int) : Str :=
  if 0 ≤ i then s.take i.toNat else s.take ((s.length : Int) + i).toNat

/-! ## text_chunking.py -/

-- Configuration constants (text_chunking.py lines 23-27).
def OVERLAP_SIZE_TOKENS : Nat := 40
def CHUNK_SIZE_TOKENS_MIN : Nat := 126 + OVERLAP_SIZE_TOKENS
def CHUNK_SIZE_TOKENS_MAX : Nat := 256

/-- The backward scan of `get_overlap`:
`while char_index > 0 and fluent_text[char_index] != ' ': char_index -= 1`.
The scan starts in bounds for every call made with `overlap_size ≥ 1`
(the repository always passes 40), so the `getD` default is never consulted. -/
def walkBack (s : Str) : Nat → Nat
  | 0 => 0
  | j + 1 => if s.getD (j + 1) ' ' = ' ' then j + 1 else walkBack s j

/-- `get_overlap(chunks, overlap_size)` (text_chunking.py lines 43-62):
join the chunks with spaces, step back `overlap_size * 3` characters, walk
back to the nearest space (stopping at index 0), and return the trimmed tail
together with its token count. -/
def get_overlap (ntok : Str → Nat) (chunks : List Str) (overlap_size : Nat) :
    List Str × Nat :=
  let fluent_text := joinSp chunks
  let char_index : Int := (fluent_text.length : Int) - (overlap_size : Int) * 3
  let final_index : Int :=
    if 0 < char_index then (walkBack fluent_text char_index.toNat : Int)
    else char_index
  let overlap := pyStrip (pySliceFrom fluent_text final_index)
  ([overlap], ntok overlap)

/-- One sentence record as produced by `overlapping_chunking`. -/
structure Sentence where
  text : Str
  page : Nat
  sentence_num : Nat
  sentences_page : Nat
deriving DecidableEq, Repr

/-- One entry of the `chunks` list inside `chunk_sentences`:
`[current_chunk, sentence_page, sentence_num, sentences_page]`. -/
structure ChunkRec where
  parts : List Str
  page : Nat
  sentence_num : Nat
  sentences_page : Nat
deriving DecidableEq, Repr

/-- The loop state of `chunk_sentences`: the emitted chunks, the open
`current_chunk`, and the running `token_count`. -/
structure ChunkState where
  chunks : List ChunkRec
  current_chunk : List Str
  token_count : Nat
deriving DecidableEq, Repr

def initChunkState : ChunkState := ⟨[], [], 0⟩

/-- One iteration of the `for sentence in sentences` loop of
`chunk_sentences` (text_chunking.py lines 81-107).  Note that the sentence
text is appended to `current_chunk` unconditionally (line 87) before the
branch on the updated running total is taken, and that the in-window branch
appends it a second time (line 92). -/
def chunkStep (ntok : Str → Nat) (min_chunk_size max_chunk_size overlap_size : Nat)
    (st : ChunkState) (s : Sentence) : ChunkState :=
  let num_tokens := ntok s.text
  let cur := st.current_chunk ++ [s.text]
  let tc := st.token_count + num_tokens
  if min_chunk_size ≤ tc ∧ tc ≤ max_chunk_size then
    let cur2 := cur ++ [s.text]
    let ov := get_overlap ntok cur2 overlap_size
    { chunks := st.chunks ++ [⟨cur2, s.page, s.sentence_num, s.sentences_page⟩],
      current_chunk := ov.1, token_count := ov.2 }
  else if max_chunk_size < tc then
    -- words = len(sentence_text); the slice bound is (-words)//2
    let words : Int := (s.text.length : Int)
    let bound : Int := Int.fdiv (-words) 2
    let sentence_first_part := pySliceTo s.text bound
    let sentence_second_part := pySliceFrom s.text bound
    let cur2 := cur ++ [sentence_first_part]
    let ov := get_overlap ntok cur2 overlap_size
    let new_chunk := ov.1 ++ [sentence_second_part]
    let num_tokens_new_part := ntok (joinSp new_chunk)
    { chunks := st.chunks ++ [⟨cur2, s.page, s.sentence_num, s.sentences_page⟩],
      current_chunk := new_chunk, token_count := ov.2 + num_tokens_new_part }
  else
    { chunks := st.chunks, current_chunk := cur, token_count := tc }

/-- One rendered chunk, i.e. one value of the returned `chunks_dict`. -/
structure RChunk where
  text : Str
  page : Nat
  sentence_num : Nat
  sentences_page : Nat
deriving DecidableEq, Repr

/-- Rendering of the `chunks` list into the values of `chunks_dict`
(text_chunking.py lines 109-110): position `i` carries key `chunk_{i+1}`. -/
def renderChunks (cs : List ChunkRec) : List RChunk :=
  cs.map fun c => ⟨joinSp c.parts, c.page, c.sentence_num, c.sentences_page⟩

/-- `chunk_sentences(sentences, min, max, overlap)` (text_chunking.py lines
64-111), with the returned dict modelled positionally: the value at list
position `i` is the one stored under key `chunk_{i+1}`.  The open
`current_chunk` left when the loop ends is not consulted when building the
result. -/
def chunk_sentences (ntok : Str → Nat) (sentences : List Sentence)
    (min_chunk_size max_chunk_size overlap_size : Nat) : List RChunk :=
  renderChunks
    (List.foldl (chunkStep ntok min_chunk_size max_chunk_size overlap_size)
      initChunkState sentences).chunks

/-- Lookup of key `chunk_k` in a chunked dict whose keys are
`chunk_1 … chunk_n` in position order: `chunk_0` and keys past the end are
absent (Python `dict.get` returns `None`). -/
def chunkDictGet (chunks : List RChunk) (k : Nat) : Option RChunk :=
  if k = 0 then none else chunks.get? (k - 1)

/-! ### Sentence segmentation (`overlapping_chunking`, lines 127-143)

The regex `(?<!\w\.\w.)(?<![A-Z][a-z]\.)(?<=\.|\?)(?<!\w[!?])\s` matches a
single whitespace character subject to look-behind conditions on the
characters before it; `re.split` cuts the text at every such character. -/

/-- Does the split regex match at a position whose consumed character is `c`,
with `prevRev` the (reversed) characters of the original text before it?
`prevRev.head` is the character immediately before `c`, and so on. -/
def sentenceBoundary (prevRev : Str) (c : Char) : Bool :=
  isPySpace c &&
  (match prevRev with
   | p1 :: _ => p1 = '.' || p1 = '?'
   | [] => false) &&
  !(match prevRev with
    | p1 :: p2 :: p3 :: p4 :: _ =>
        isPyWord p4 && p3 = '.' && isPyWord p2 && p1 ≠ '\n'
    | _ => false) &&
  !(match prevRev with
    | p1 :: p2 :: p3 :: _ =>
        ('A' ≤ p3 && p3 ≤ 'Z') && ('a' ≤ p2 && p2 ≤ 'z') && p1 = '.'
    | _ => false) &&
  !(match prevRev with
    | p1 :: p2 :: _ => isPyWord p2 && (p1 = '!' || p1 = '?')
    | _ => false)

/-- Left-to-right scan of `re.split`: `prevRev` holds the already consumed
characters (reversed, split points included), `cur` the current segment
(reversed). -/
def reSplitGo (prevRev cur : Str) : Str → List Str
  | [] => [cur.reverse]
  | c :: rest =>
      if sentenceBoundary prevRev c then
        cur.reverse :: reSplitGo (c :: prevRev) [] rest
      else
        reSplitGo (c :: prevRev) (c :: cur) rest

/-- `re.split('(?<!\w\.\w.)(?<![A-Z][a-z]\.)(?<=\.|\?)(?<!\w[!?])\s', doc)`. -/
def sentenceSplit (s : Str) : List Str := reSplitGo [] [] s

/-- The per-page body of `overlapping_chunking` (lines 132-141): split one
page into sentences, strip each, and tag it with the page number, its 1-based
rank and the page's sentence count. -/
def segmentPage (text : Str) (page_num : Nat) : List Sentence :=
  let sentences := sentenceSplit text
  let sentences_page := sentences.length
  sentences.mapIdx fun i sent => ⟨pyStrip sent, page_num, i + 1, sentences_page⟩

/-- `overlapping_chunking(pages, min, max, overlap)` (lines 113-143). -/
def overlapping_chunking (ntok : Str → Nat) (pages : List (Str × Nat))
    (min_chunk_size max_chunk_size overlap_size : Nat) : List RChunk :=
  chunk_sentences ntok
    (pages.foldr (fun p acc => segmentPage p.1 p.2 ++ acc) [])
    min_chunk_size max_chunk_size overlap_size

/-! ## query.py -/

/-- One entry of the global index: `{len, start, end}` as written by the
global-indexing loop of `main.py` (`end` is `len(all_vectors) - 1`, which can
be `-1` for a leading empty document, hence `Int`). -/
structure IndexData where
  len : Nat
  start : Nat
  end_ : Int
deriving DecidableEq, Repr

section Query

variable {D : Type}

/-- The body of the `for offset in [-1, 1]` loop of
`filter_non_adjacent_indices` for one offset (query.py lines 55-58): append
`result.id + offset` as an unscored entry when it is non-negative and not yet
present. -/
def tryAdjacent (rid offset : Int) (acc : List (Int × Option D)) :
    List (Int × Option D) :=
  let adjacent_index := rid + offset
  if 0 ≤ adjacent_index ∧ adjacent_index ∉ acc.map Prod.fst then
    acc ++ [(adjacent_index, none)]
  else acc

/-- The whole `for offset in [-1, 1]` loop (query.py lines 54-60).  The
`break` after an append only leaves this inner loop: when appending `id - 1`
reaches `max_neighbors` the `id + 1` offset is skipped, nothing more. -/
def handleAdjacent (max_neighbors : Nat) (rid : Int)
    (acc : List (Int × Option D)) : List (Int × Option D) :=
  let acc1 := tryAdjacent rid (-1) acc
  if acc1.length ≠ acc.length ∧ max_neighbors ≤ acc1.length then acc1
  else tryAdjacent rid 1 acc1

/-- The `for result in results` loop of `filter_non_adjacent_indices`
(query.py lines 48-60), accumulating `final_indices`.  Only the `break` taken
right after appending a primary hit ends this outer loop. -/
def filterAux (max_neighbors : Nat) (acc : List (Int × Option D)) :
    List (Int × D) → List (Int × Option D)
  | [] => acc
  | (rid, dist) :: rest =>
      if rid ∈ acc.map Prod.fst then filterAux max_neighbors acc rest
      else
        let acc1 := acc ++ [(rid, some dist)]
        if max_neighbors ≤ acc1.length then acc1
        else filterAux max_neighbors (handleAdjacent max_neighbors rid acc1) rest

/-- `filter_non_adjacent_indices(results, max_neighbors)` (query.py lines
35-62).  A hit is `(id, distance)`; appended neighbors carry no distance
(Python stores `""`, modelled as `none`). -/
def filter_non_adjacent_indices (results : List (Int × D))
    (max_neighbors : Nat) : List (Int × Option D) :=
  filterAux max_neighbors [] results

end Query

/-- `find_text_chunks(chunk_id, file_path)` (query.py lines 64-84), with the
index file contents and the blob store passed explicitly: scan the index
entries in order, and for the first entry whose `[start, end]` range contains
`chunk_id`, look up key `chunk_{chunk_id - start}` in that document's chunked
dict; return `none` when no range contains `chunk_id`. -/
def find_text_chunks (index : List (String × IndexData))
    (store : String → List RChunk) (chunk_id : Int) : Option RChunk :=
  match index with
  | [] => none
  | (key, value) :: rest =>
      if (value.start : Int) ≤ chunk_id ∧ chunk_id ≤ value.end_ then
        let index_in_file := chunk_id - value.start
        chunkDictGet (store key) index_in_file.toNat
      else find_text_chunks rest store chunk_id

/-! ## main.py: the global-indexing loop (lines 94-107) -/

section Indexer

variable {α : Type}

/-- One iteration of the `for vectorized_filename in vectorized_filenames`
loop: record `start = len(all_vectors)`, append the document's vectors and
one source tag per vector, record `end = len(all_vectors) - 1` after the
append and `len = len(vectors)`, and insert the entry under the document key.
State is `(all_vectors, all_sources, global_indexing)`. -/
def globalStep (acc : List α × List String × List (String × IndexData))
    (doc : String × List α) :
    List α × List String × List (String × IndexData) :=
  let all_vectors := acc.1
  let all_sources := acc.2.1
  let global_indexing := acc.2.2
  let start := all_vectors.length
  let all_vectors2 := all_vectors ++ doc.2
  let all_sources2 := all_sources ++ List.replicate doc.2.length doc.1
  let entry : IndexData := ⟨doc.2.length, start, (all_vectors2.length : Int) - 1⟩
  (all_vectors2, all_sources2, global_indexing ++ [(doc.1, entry)])

/-- The whole indexing pass over the listed documents, starting from empty
`all_vectors`, `all_sources` and `global_indexing`. -/
def globalIndexingLoop (docs : List (String × List α)) :
    List α × List String × List (String × IndexData) :=
  docs.foldl globalStep ([], [], [])

end Indexer

/-! ## chunk_vectorization.py -/

/-- `pad_vector(vector, target_dim)` (chunk_vectorization.py lines 82-86):
right-pad with zeros when the vector is shorter than the target, otherwise
return it unchanged.  Float entries are modelled as rationals (the function
performs no arithmetic on them). -/
def pad_vector (vector : List ℚ) (target_dim : Nat) : List ℚ :=
  let padding_length : Int := (target_dim : Int) - (vector.length : Int)
  if 0 < padding_length then vector ++ List.replicate padding_length.toNat 0
  else vector

/-! ## Concrete instances and proof-side specifications -/

/-- A concrete instantiation of the tokenizer parameter (one token per
character) used to exhibit control-flow behaviour of the chunking loop on
explicit inputs. -/
def lenTok : Str → Nat := List.length

/-- Three concrete sentences (200, 100 and 10 characters) driving
`chunk_sentences` through an in-window emission, a split emission and a
further split emission. -/
def c1s1 : Sentence := ⟨List.replicate 200 'a', 1, 1, 3⟩

def c1s2 : Sentence := ⟨List.replicate 100 'b', 1, 2, 3⟩

def c1s3 : Sentence := ⟨List.replicate 10 'c', 1, 3, 3⟩

/-- A concrete chunked dict with keys `chunk_1`, `chunk_2`, `chunk_3`. -/
def c4Chunks : List RChunk := [⟨['A'], 1, 1, 3⟩, ⟨['B'], 1, 2, 3⟩, ⟨['C'], 1, 3, 3⟩]

/-- A concrete document list with vector counts `[3, 5, 2]`. -/
def docsC5 : List (String × List Nat) :=
  [("doc0", [0, 1, 2]), ("doc1", [3, 4, 5, 6, 7]), ("doc2", [8, 9])]

def dfltEntry : String × IndexData := ("", ⟨0, 0, 0⟩)

def dfltDoc {α : Type} : String × List α := ("", [])

/-- Proof-side description of the index entries the indexing loop builds when
the vector array already holds `base` vectors: each document gets
`start = base + (lengths so far)` and `end = start + len - 1`. -/
def entriesFrom {α : Type} (base : Nat) :
    List (String × List α) → List (String × IndexData)
  | [] => []
  | d :: ds =>
      (d.1, ⟨d.2.length, base, ((base + d.2.length : Nat) : Int) - 1⟩) ::
        entriesFrom (base + d.2.length) ds

/-! ## Theorems -/

/-- Claim C9: `pad_vector` right-pads a short vector with zeros to exactly the
target dimension and passes an equal-or-longer vector through unchanged (no
truncation). -/
theorem C9_pad_vector (v : List ℚ) (d : Nat) :
    (v.length < d →
      pad_vector v d = v ++ List.replicate (d - v.length) 0 ∧
      (pad_vector v d).length = d) ∧
    (d ≤ v.length → pad_vector v d = v) := by
  constructor
  · intro h
    have h0 : (0 : Int) < (d : Int) - (v.length : Int) := by omega
    have ht : ((d : Int) - (v.length : Int)).toNat = d - v.length := by omega
    constructor
    · simp only [pad_vector, if_pos h0, ht]
    · simp only [pad_vector, if_pos h0, ht, List.length_append,
        List.length_replicate]
      omega
  · intro h
    simp only [pad_vector]
    rw [if_neg (by omega)]

/-- Claim C9 witness: the two concrete evaluations from the specification. -/
theorem C9_pad_vector_witness :
    pad_vector [1, 2] 5 = [1, 2, 0, 0, 0] ∧ pad_vector [1, 2, 3] 2 = [1, 2, 3] := by
  constructor
  · have h := ((C9_pad_vector [1, 2] 5).1 (by decide)).1
    rw [h]; rfl
  · exact (C9_pad_vector [1, 2, 3] 2).2 (by decide)

/-- Claim C10: a chunk id outside every index entry's `[start, end]` range
makes `find_text_chunks` return `none` (no error path exists). -/
theorem C10_out_of_range_none (index : List (String × IndexData))
    (store : String → List RChunk) (g : Int)
    (h : ∀ e ∈ index, ¬ (((e.2.start : Int) ≤ g) ∧ g ≤ e.2.end_)) :
    find_text_chunks index store g = none := by
  induction index with
  | nil => rfl
  | cons hd tl ih =>
      obtain ⟨key, value⟩ := hd
      simp only [find_text_chunks]
      rw [if_neg (h (key, value) (by simp))]
      exact ih fun e he => h e (List.mem_cons_of_mem _ he)

/-- Claim C10 witness: id 5 is outside the single range `[0, 2]`, and the
lookup returns `none`. -/
theorem C10_out_of_range_none_witness :
    find_text_chunks [("doc", ⟨3, 0, 2⟩)] (fun _ => c4Chunks) 5 = none :=
  C10_out_of_range_none _ _ 5 (by decide)

/-- Claim C4 (code bug): for `g = entry.start = 0` inside range `[0, 2]` the
lookup returns `none` — the loop computes key `chunk_0`, but chunked dicts are
keyed from `chunk_1`, so the document's first chunk is unreachable; and
`g = 1` returns the first chunk instead of the chunk at local offset 1. -/
theorem C4_reverse_lookup_off_by_one :
    find_text_chunks [("doc", ⟨3, 0, 2⟩)] (fun _ => c4Chunks) 0 = none ∧
    chunkDictGet c4Chunks 1 = some ⟨['A'], 1, 1, 3⟩ ∧
    find_text_chunks [("doc", ⟨3, 0, 2⟩)] (fun _ => c4Chunks) 1 =
      some ⟨['A'], 1, 1, 3⟩ := by
  decide

/-- `handleAdjacent` cannot push the accumulator past `max_neighbors` when it
starts strictly below it. -/
theorem handleAdjacent_length_le {D : Type} (K : Nat) (rid : Int)
    (acc : List (Int × Option D)) (h : acc.length < K) :
    (handleAdjacent K rid acc).length ≤ K := by
  have hlen : ∀ (l : List (Int × Option D)) (off : Int),
      (tryAdjacent rid off l).length = l.length ∨
      (tryAdjacent rid off l).length = l.length + 1 := by
    intro l off
    simp only [tryAdjacent]
    split_ifs <;> simp
  simp only [handleAdjacent]
  rcases hlen acc (-1) with h2 | h2 <;>
    rcases hlen (tryAdjacent rid (-1) acc) 1 with h3 | h3 <;>
    split_ifs <;> omega

/-- The outer loop keeps the accumulator length below `max_neighbors + 2`:
only one primary append can happen after the inner break fires at
`max_neighbors`. -/
theorem filterAux_length_le {D : Type} (K : Nat) :
    ∀ (res : List (Int × D)) (acc : List (Int × Option D)),
      acc.length ≤ K → (filterAux K acc res).length ≤ K + 1 := by
  intro res
  induction res with
  | nil => intro acc h; simpa only [filterAux] using by omega
  | cons hd tl ih =>
      intro acc h
      obtain ⟨rid, dist⟩ := hd
      simp only [filterAux]
      split_ifs with h1 h2
      · exact ih acc h
      · simp only [List.length_append, List.length_cons, List.length_nil]
        omega
      · refine ih _ ?_
        refine handleAdjacent_length_le K rid _ ?_
        simp only [List.length_append, List.length_cons, List.length_nil] at h2 ⊢
        omega

/-- Claim C3 counterexample: with hits `[(10, 0), (20, 0)]` and
`max_neighbors = 2` the result has three entries — after the inner break
fires at length 2, the next primary hit is still appended — so the output
length is not bounded by `K`. -/
theorem C3_counterexample :
    filter_non_adjacent_indices (D := Int) [(10, 0), (20, 0)] 2 =
      [(10, some 0), (9, none), (20, some 0)] ∧
    ¬ (filter_non_adjacent_indices (D := Int) [(10, 0), (20, 0)] 2).length ≤ 2 := by
  decide

/-- Claim C3 (amended): the result of `filter_non_adjacent_indices` has
length at most `max_neighbors + 1`; the overshoot by one happens exactly when
the `max_neighbors`-th entry was an appended neighbor, because the inner
break does not stop the outer loop before one more primary hit is appended. -/
theorem C3_length_le_succ {D : Type} (results : List (Int × D))
    (max_neighbors : Nat) :
    (filter_non_adjacent_indices results max_neighbors).length ≤
      max_neighbors + 1 :=
  filterAux_length_le max_neighbors results [] (Nat.zero_le _)

/-- Appending a fresh non-negative id keeps the accumulator's ids distinct
and non-negative. -/
theorem append_entry_inv {D : Type} (acc : List (Int × Option D)) (x : Int)
    (d : Option D) (hn : (acc.map Prod.fst).Nodup)
    (hp : ∀ p ∈ acc, 0 ≤ p.1) (hx : x ∉ acc.map Prod.fst) (hx0 : 0 ≤ x) :
    ((acc ++ [(x, d)]).map Prod.fst).Nodup ∧ ∀ p ∈ acc ++ [(x, d)], 0 ≤ p.1 := by
  constructor
  · simp only [List.map_append, List.map_cons, List.map_nil]
    simp [List.nodup_append, hn, hx]
  · intro p hp'
    rcases List.mem_append.1 hp' with h' | h'
    · exact hp p h'
    · simp only [List.mem_singleton] at h'
      subst h'
      exact hx0

/-- `tryAdjacent` preserves distinctness and non-negativity of the ids. -/
theorem tryAdjacent_inv {D : Type} (rid off : Int)
    (acc : List (Int × Option D)) (hn : (acc.map Prod.fst).Nodup)
    (hp : ∀ p ∈ acc, 0 ≤ p.1) :
    ((tryAdjacent rid off acc).map Prod.fst).Nodup ∧
      ∀ p ∈ tryAdjacent rid off acc, 0 ≤ p.1 := by
  simp only [tryAdjacent]
  split_ifs with h
  · exact append_entry_inv acc _ _ hn hp h.2 h.1
  · exact ⟨hn, hp⟩

/-- `handleAdjacent` preserves distinctness and non-negativity of the ids. -/
theorem handleAdjacent_inv {D : Type} (K : Nat) (rid : Int)
    (acc : List (Int × Option D)) (hn : (acc.map Prod.fst).Nodup)
    (hp : ∀ p ∈ acc, 0 ≤ p.1) :
    ((handleAdjacent K rid acc).map Prod.fst).Nodup ∧
      ∀ p ∈ handleAdjacent K rid acc, 0 ≤ p.1 := by
  have h1 := tryAdjacent_inv rid (-1) acc hn hp
  have h2 := tryAdjacent_inv (D := D) rid 1 _ h1.1 h1.2
  simp only [handleAdjacent]
  split_ifs
  · exact h1
  · exact h2

/-- The outer loop of `filter_non_adjacent_indices` preserves distinctness
and non-negativity of the accumulated ids, given non-negative hit ids. -/
theorem filterAux_inv {D : Type} (K : Nat) :
    ∀ (res : List (Int × D)) (acc : List (Int × Option D)),
      (∀ p ∈ res, 0 ≤ p.1) → (acc.map Prod.fst).Nodup →
      (∀ p ∈ acc, 0 ≤ p.1) →
      ((filterAux K acc res).map Prod.fst).Nodup ∧
        ∀ p ∈ filterAux K acc res, 0 ≤ p.1 := by
  intro res
  induction res with
  | nil => intro acc _ hn hp; exact ⟨hn, hp⟩
  | cons hd tl ih =>
      intro acc hres hn hp
      obtain ⟨rid, dist⟩ := hd
      have hrid : (0 : Int) ≤ rid := hres (rid, dist) (by simp)
      have htl : ∀ p ∈ tl, (0 : Int) ≤ p.1 :=
        fun p h' => hres p (List.mem_cons_of_mem _ h')
      simp only [filterAux]
      split_ifs with h1 h2
      · exact ih acc htl hn hp
      · exact append_entry_inv acc rid (some dist) hn hp h1 hrid
      · have hap := append_entry_inv acc rid (some dist) hn hp h1 hrid
        have hha := handleAdjacent_inv K rid _ hap.1 hap.2
        exact ih _ htl hha.1 hha.2

/-- Claim C8: with non-negative hit ids, `filter_non_adjacent_indices` emits
no negative id and no duplicate id, even when two hits are numeric neighbors
of each other. -/
theorem C8_no_negative_no_duplicate {D : Type} (results : List (Int × D))
    (max_neighbors : Nat) (h : ∀ p ∈ results, 0 ≤ p.1) :
    ((filter_non_adjacent_indices results max_neighbors).map Prod.fst).Nodup ∧
      ∀ p ∈ filter_non_adjacent_indices results max_neighbors, 0 ≤ p.1 :=
  filterAux_inv max_neighbors results [] h (by simp) (by simp)

/-- Claim C8 witness: hits 10 and 11 are numeric neighbors of each other; the
output ids are distinct and non-negative. -/
theorem C8_no_negative_no_duplicate_witness :
    (∀ p ∈ ([(10, 3), (11, 5)] : List (Int × Int)), 0 ≤ p.1) ∧
    ((filter_non_adjacent_indices (D := Int) [(10, 3), (11, 5)] 10).map
        Prod.fst).Nodup ∧
      ∀ p ∈ filter_non_adjacent_indices (D := Int) [(10, 3), (11, 5)] 10,
        0 ≤ p.1 :=
  ⟨by decide, C8_no_negative_no_duplicate [(10, 3), (11, 5)] 10 (by decide)⟩

/-- The split regex never matches while no previously consumed character is a
`.` or `?` (the positive look-behind fails), so the scan returns a single
segment holding everything. -/
theorem reSplitGo_no_terminator :
    ∀ (rest prevRev cur : Str),
      (∀ c ∈ prevRev, c ≠ '.' ∧ c ≠ '?') →
      (∀ c ∈ rest, c ≠ '.' ∧ c ≠ '?') →
      reSplitGo prevRev cur rest = [cur.reverse ++ rest] := by
  intro rest
  induction rest with
  | nil => intro prevRev cur _ _; simp [reSplitGo]
  | cons c rest ih =>
      intro prevRev cur hprev hrest
      have hb : sentenceBoundary prevRev c = false := by
        simp only [sentenceBoundary]
        cases prevRev with
        | nil => simp
        | cons p1 ps =>
            have hp1 := hprev p1 (by simp)
            simp [hp1.1, hp1.2]
      simp only [reSplitGo, hb, Bool.false_eq_true, if_false]
      rw [ih (c :: prevRev) (c :: cur) ?_ ?_]
      · simp
      · intro d hd
        rcases List.mem_cons.1 hd with h' | h'
        · subst h'; exact hrest d (by simp)
        · exact hprev d h'
      · exact fun d hd => hrest d (List.mem_cons_of_mem _ hd)

/-- Claim C7 counterexample: an empty page does not yield an empty sentence
sequence — `re.split` applied to the empty string returns `['']`, so the
segmenter yields exactly one sentence with empty text. -/
theorem C7_counterexample :
    segmentPage [] 1 = [⟨[], 1, 1, 1⟩] ∧ segmentPage [] 1 ≠ [] := by
  decide

/-- Claim C7 (amended): a page containing no `.` and no `?` (in particular an
empty page) yields exactly one sentence, whose text is the whole page text
stripped of surrounding whitespace, tagged rank 1 of 1. -/
theorem C7_single_sentence (text : Str) (page : Nat)
    (h : ∀ c ∈ text, c ≠ '.' ∧ c ≠ '?') :
    segmentPage text page = [⟨pyStrip text, page, 1, 1⟩] := by
  have hs : sentenceSplit text = [text] := by
    simpa using reSplitGo_no_terminator text [] [] (by simp) h
  simp [segmentPage, hs]

/-- Claim C7 witness: a concrete terminator-free page yields one sentence
spanning the whole page. -/
theorem C7_single_sentence_witness :
    segmentPage ['h', 'i', ' ', 'y', 'o'] 2 = [⟨['h', 'i', ' ', 'y', 'o'], 2, 1, 1⟩] :=
  (C7_single_sentence ['h', 'i', ' ', 'y', 'o'] 2 (by decide)).trans (by decide)

set_option maxRecDepth 8000 in
/-- Claim C1 counterexample: with a tokenizer counting one token per
character, the three-sentence stream `c1s1, c1s2, c1s3` makes
`chunk_sentences` (at the repository constants `166/256/40`) emit three
chunks, and the second — a non-final chunk — is emitted by the split branch
while the accumulated token count is `300 > 256 = MAX_TOKENS`. -/
theorem C1_counterexample :
    (chunk_sentences lenTok [c1s1, c1s2, c1s3] CHUNK_SIZE_TOKENS_MIN
        CHUNK_SIZE_TOKENS_MAX OVERLAP_SIZE_TOKENS).length = 3 ∧
    (chunkStep lenTok CHUNK_SIZE_TOKENS_MIN CHUNK_SIZE_TOKENS_MAX
        OVERLAP_SIZE_TOKENS
        (chunkStep lenTok CHUNK_SIZE_TOKENS_MIN CHUNK_SIZE_TOKENS_MAX
          OVERLAP_SIZE_TOKENS initChunkState c1s1) c1s2).chunks.length = 2 ∧
    (chunkStep lenTok CHUNK_SIZE_TOKENS_MIN CHUNK_SIZE_TOKENS_MAX
        OVERLAP_SIZE_TOKENS initChunkState c1s1).token_count +
        lenTok c1s2.text = 300 ∧
    ¬ ((chunkStep lenTok CHUNK_SIZE_TOKENS_MIN CHUNK_SIZE_TOKENS_MAX
          OVERLAP_SIZE_TOKENS initChunkState c1s1).token_count +
        lenTok c1s2.text ≤ CHUNK_SIZE_TOKENS_MAX) := by
  decide

/-- Claim C1 (amended): a chunk is emitted on folding a sentence exactly when
the accumulated token count reaches `MIN_TOKENS`, so every emitted chunk's
count at emission time is at least `MIN_TOKENS`; the in-window branch also
respects `MAX_TOKENS`, but the split branch emits with a count strictly above
`MAX_TOKENS` (so the claimed upper bound fails for non-final chunks). -/
theorem C1_emission_iff_min (ntok : Str → Nat)
    (min_chunk_size max_chunk_size overlap_size : Nat) (st : ChunkState)
    (s : Sentence) (hmm : min_chunk_size ≤ max_chunk_size) :
    ((chunkStep ntok min_chunk_size max_chunk_size overlap_size st s).chunks.length
        = st.chunks.length + 1 ↔
      min_chunk_size ≤ st.token_count + ntok s.text) ∧
    (st.token_count + ntok s.text < min_chunk_size →
      (chunkStep ntok min_chunk_size max_chunk_size overlap_size st s).chunks
        = st.chunks) := by
  have hlen : ∀ x : ChunkRec,
      (st.chunks ++ [x]).length = st.chunks.length + 1 := by simp
  simp only [chunkStep]
  split_ifs with h1 h2
  · exact ⟨by rw [hlen]; omega, fun hlt => absurd h1.1 (by omega)⟩
  · exact ⟨by rw [hlen]; omega, fun hlt => absurd hlt (by omega)⟩
  · refine ⟨?_, fun _ => rfl⟩
    show st.chunks.length = st.chunks.length + 1 ↔ _
    omega

set_option maxRecDepth 8000 in
/-- Claim C1 amended witness: at the repository constants, folding the first
concrete sentence into the empty state emits a chunk, and the running total
indeed reached `MIN_TOKENS`. -/
theorem C1_emission_iff_min_witness :
    (chunkStep lenTok CHUNK_SIZE_TOKENS_MIN CHUNK_SIZE_TOKENS_MAX
        OVERLAP_SIZE_TOKENS initChunkState c1s1).chunks.length =
      initChunkState.chunks.length + 1 :=
  (C1_emission_iff_min lenTok CHUNK_SIZE_TOKENS_MIN CHUNK_SIZE_TOKENS_MAX
      OVERLAP_SIZE_TOKENS initChunkState c1s1 (by decide)).1.mpr (by decide)

/-- Claim C2 counterexample: a single two-character sentence leaves a
non-empty open chunk (not overlap-seed text: no emission ever happened) when
the stream ends, yet `chunk_sentences` returns no chunks at all — the
trailing text does not appear as the last chunk of the output. -/
theorem C2_counterexample :
    chunk_sentences lenTok [⟨['h', 'i'], 1, 1, 1⟩] CHUNK_SIZE_TOKENS_MIN
        CHUNK_SIZE_TOKENS_MAX OVERLAP_SIZE_TOKENS = [] ∧
    (List.foldl
        (chunkStep lenTok CHUNK_SIZE_TOKENS_MIN CHUNK_SIZE_TOKENS_MAX
          OVERLAP_SIZE_TOKENS) initChunkState
        [⟨['h', 'i'], 1, 1, 1⟩]).current_chunk = [['h', 'i']] := by
  decide

/-- Claim C2 (amended): the open chunk left when the sentence stream ends is
discarded, never emitted: a stream of one sentence whose token count stays
below the minimum produces an empty output even though its accumulated text
is non-empty (and is not overlap-seed text). -/
theorem C2_trailing_chunk_discarded (ntok : Str → Nat)
    (min_chunk_size max_chunk_size overlap_size : Nat) (s : Sentence)
    (hmm : min_chunk_size ≤ max_chunk_size)
    (h : ntok s.text < min_chunk_size) :
    chunk_sentences ntok [s] min_chunk_size max_chunk_size overlap_size = [] ∧
    (List.foldl (chunkStep ntok min_chunk_size max_chunk_size overlap_size)
        initChunkState [s]).current_chunk = [s.text] := by
  have hstep : chunkStep ntok min_chunk_size max_chunk_size overlap_size
      initChunkState s = ⟨[], [s.text], ntok s.text⟩ := by
    simp only [chunkStep, initChunkState]
    rw [if_neg (by omega), if_neg (by omega)]
    simp
  constructor
  · simp [chunk_sentences, hstep, renderChunks]
  · simp [hstep]

/-- Claim C2 amended witness: the concrete under-minimum stream from the
counterexample, through the amended theorem. -/
theorem C2_trailing_chunk_discarded_witness :
    chunk_sentences lenTok [⟨['h', 'i'], 1, 1, 1⟩] CHUNK_SIZE_TOKENS_MIN
        CHUNK_SIZE_TOKENS_MAX OVERLAP_SIZE_TOKENS = [] :=
  (C2_trailing_chunk_discarded lenTok CHUNK_SIZE_TOKENS_MIN
      CHUNK_SIZE_TOKENS_MAX OVERLAP_SIZE_TOKENS ⟨['h', 'i'], 1, 1, 1⟩
      (by decide) (by decide)).1

/-- Python `(-n)//2` is `-((n+1)//2)`: floor division rounds toward minus
infinity. -/
theorem fdiv_neg_half (n : Nat) :
    Int.fdiv (-(n : Int)) 2 = -(((n + 1) / 2 : Nat) : Int) := by
  cases n with
  | zero => rfl
  | succ m =>
      have h1 : (-((m + 1 : Nat) : Int)) = Int.negSucc m := by
        rw [Int.negSucc_eq]
        push_cast
        ring
      have h2 : Int.fdiv (Int.negSucc m) 2 = Int.negSucc (m / 2) := rfl
      have h3 : (m + 1 + 1) / 2 = m / 2 + 1 := by omega
      rw [h1, h2, h3, Int.negSucc_eq]
      push_cast
      ring

/-- The two Python slices `s[:k]` and `s[k:]` always recompose `s`. -/
theorem pySlice_recompose (s : Str) (i : Int) :
    pySliceTo s i ++ pySliceFrom s i = s := by
  simp only [pySliceTo, pySliceFrom]
  split_ifs <;> exact List.take_append_drop _ _

/-- The split bound `(-len)//2` used on the offending sentence cuts it at the
character midpoint: `len - (len+1)/2` characters, then `(len+1)/2`. -/
theorem pySplit_halves (s : Str) :
    pySliceTo s (Int.fdiv (-(s.length : Int)) 2) =
      s.take (s.length - (s.length + 1) / 2) ∧
    pySliceFrom s (Int.fdiv (-(s.length : Int)) 2) =
      s.drop (s.length - (s.length + 1) / 2) := by
  rw [fdiv_neg_half]
  rcases Nat.eq_zero_or_pos ((s.length + 1) / 2) with h | h
  · have hn : s.length = 0 := by omega
    rw [List.length_eq_zero] at hn
    subst hn
    exact ⟨rfl, rfl⟩
  · have h0 : ¬ (0 : Int) ≤ -(((s.length + 1) / 2 : Nat) : Int) := by omega
    have ht : ((s.length : Int) + -(((s.length + 1) / 2 : Nat) : Int)).toNat =
        s.length - (s.length + 1) / 2 := by omega
    constructor
    · simp only [pySliceTo, if_neg h0, ht]
    · simp only [pySliceFrom, if_neg h0, ht]

set_option maxRecDepth 8000 in
/-- Claim C6 counterexample: a single 300-character sentence (tokenizer: one
token per character) takes the split branch; the next chunk's running token
count becomes `451`, while the token count of the full new chunk text (the
joined overlap seed plus second half) is `301` — the count is not recomputed
over the new chunk text, the overlap seed's count is added twice. -/
theorem C6_counterexample :
    (chunkStep lenTok CHUNK_SIZE_TOKENS_MIN CHUNK_SIZE_TOKENS_MAX
        OVERLAP_SIZE_TOKENS initChunkState
        ⟨List.replicate 300 'b', 1, 1, 1⟩).token_count = 451 ∧
    lenTok (joinSp
        (chunkStep lenTok CHUNK_SIZE_TOKENS_MIN CHUNK_SIZE_TOKENS_MAX
          OVERLAP_SIZE_TOKENS initChunkState
          ⟨List.replicate 300 'b', 1, 1, 1⟩).current_chunk) = 301 ∧
    (451 : Nat) ≠ 301 := by
  decide

/-- Claim C6 (amended): when the running total exceeds the maximum, the
offending sentence is split at the character midpoint, the first half is
appended to the current chunk (which already holds the full sentence) and the
chunk is emitted with the overlap procedure; the next chunk starts as the
overlap seed with the second half appended — but its running token count is
the overlap seed's token count plus the token count of the full new chunk
text, double-counting the seed. -/
theorem C6_split_branch (ntok : Str → Nat)
    (min_chunk_size max_chunk_size overlap_size : Nat) (st : ChunkState)
    (s : Sentence) (h : max_chunk_size < st.token_count + ntok s.text) :
    pySliceTo s.text (Int.fdiv (-(s.text.length : Int)) 2) ++
        pySliceFrom s.text (Int.fdiv (-(s.text.length : Int)) 2) = s.text ∧
    (pySliceTo s.text (Int.fdiv (-(s.text.length : Int)) 2)).length =
        s.text.length - (s.text.length + 1) / 2 ∧
    (pySliceFrom s.text (Int.fdiv (-(s.text.length : Int)) 2)).length =
        (s.text.length + 1) / 2 ∧
    chunkStep ntok min_chunk_size max_chunk_size overlap_size st s =
      { chunks := st.chunks ++
          [⟨st.current_chunk ++ [s.text,
              pySliceTo s.text (Int.fdiv (-(s.text.length : Int)) 2)],
            s.page, s.sentence_num, s.sentences_page⟩],
        current_chunk :=
          (get_overlap ntok (st.current_chunk ++ [s.text,
              pySliceTo s.text (Int.fdiv (-(s.text.length : Int)) 2)])
            overlap_size).1 ++
            [pySliceFrom s.text (Int.fdiv (-(s.text.length : Int)) 2)],
        token_count :=
          (get_overlap ntok (st.current_chunk ++ [s.text,
              pySliceTo s.text (Int.fdiv (-(s.text.length : Int)) 2)])
            overlap_size).2 +
            ntok (joinSp
              ((get_overlap ntok (st.current_chunk ++ [s.text,
                  pySliceTo s.text (Int.fdiv (-(s.text.length : Int)) 2)])
                overlap_size).1 ++
                [pySliceFrom s.text (Int.fdiv (-(s.text.length : Int)) 2)])) } := by
  have hsp := pySplit_halves s.text
  refine ⟨?_, ?_, ?_, ?_⟩
  · exact pySlice_recompose s.text _
  · rw [hsp.1, List.length_take]
    omega
  · rw [hsp.2, List.length_drop]
    omega
  · simp only [chunkStep]
    rw [if_neg (by omega), if_pos h]
    simp [List.append_assoc]

set_option maxRecDepth 8000 in
/-- Claim C6 amended witness: the concrete 300-character sentence satisfies
the over-budget hypothesis, and its two halves recompose it. -/
theorem C6_split_branch_witness :
    pySliceTo (List.replicate 300 'b')
        (Int.fdiv (-((List.replicate (α := Char) 300 'b').length : Int)) 2) ++
      pySliceFrom (List.replicate 300 'b')
        (Int.fdiv (-((List.replicate (α := Char) 300 'b').length : Int)) 2) =
      List.replicate (α := Char) 300 'b' :=
  (C6_split_branch lenTok CHUNK_SIZE_TOKENS_MIN CHUNK_SIZE_TOKENS_MAX
      OVERLAP_SIZE_TOKENS initChunkState ⟨List.replicate 300 'b', 1, 1, 1⟩
      (by decide)).1

/-- Prefix sums of a list of naturals are monotone in the prefix length. -/
theorem take_sum_mono (l : List Nat) {m n : Nat} (h : m ≤ n) :
    (l.take m).sum ≤ (l.take n).sum := by
  have h1 : (l.take n).take m = l.take m := by
    rw [List.take_take, min_eq_left h]
  calc (l.take m).sum = ((l.take n).take m).sum := by rw [h1]
    _ ≤ ((l.take n).take m).sum + ((l.take n).drop m).sum := Nat.le_add_right _ _
    _ = (l.take n).sum := by rw [← List.sum_append, List.take_append_drop]

/-- One more prefix element adds that element to the prefix sum. -/
theorem sum_take_succ_getD :
    ∀ (l : List Nat) (i : Nat), i < l.length →
      (l.take (i + 1)).sum = (l.take i).sum + l.getD i 0 := by
  intro l
  induction l with
  | nil => intro i h; simp at h
  | cons a l ih =>
      intro i h
      cases i with
      | zero => simp
      | succ i =>
          simp only [List.take_succ_cons, List.sum_cons, List.getD_cons_succ,
            ih i (by simpa using h)]
          omega

/-- The in-bounds values of the per-document length list. -/
theorem lens_getD {α : Type} :
    ∀ (docs : List (String × List α)) (i : Nat), i < docs.length →
      (docs.map fun d => d.2.length).getD i 0 = (docs.getD i dfltDoc).2.length := by
  intro docs
  induction docs with
  | nil => intro i h; simp at h
  | cons d ds ih =>
      intro i h
      cases i with
      | zero => rfl
      | succ i =>
          simp only [List.map_cons, List.getD_cons_succ]
          exact ih i (by simpa using h)

/-- The indexing fold from an arbitrary starting state: the new entries are
exactly `entriesFrom` of the current vector count, and the vector array grows
by the total of the documents' lengths. -/
theorem globalLoop_spec {α : Type} :
    ∀ (docs : List (String × List α)) (vs : List α) (ss : List String)
      (es : List (String × IndexData)),
      (List.foldl globalStep (vs, ss, es) docs).2.2 =
        es ++ entriesFrom vs.length docs ∧
      (List.foldl globalStep (vs, ss, es) docs).1.length =
        vs.length + (docs.map fun d => d.2.length).sum := by
  intro docs
  induction docs with
  | nil => intro vs ss es; simp [entriesFrom]
  | cons d ds ih =>
      intro vs ss es
      have hstep : globalStep (vs, ss, es) d =
          (vs ++ d.2, ss ++ List.replicate d.2.length d.1,
            es ++ [(d.1, ⟨d.2.length, vs.length,
              ((vs.length + d.2.length : Nat) : Int) - 1⟩)]) := by
        simp [globalStep]
      simp only [List.foldl_cons, hstep]
      have h := ih (vs ++ d.2) (ss ++ List.replicate d.2.length d.1)
        (es ++ [(d.1, ⟨d.2.length, vs.length,
          ((vs.length + d.2.length : Nat) : Int) - 1⟩)])
      refine ⟨?_, ?_⟩
      · rw [h.1, List.length_append, List.append_assoc]
        rfl
      · rw [h.2, List.length_append]
        simp only [List.map_cons, List.sum_cons]
        omega

/-- `entriesFrom` produces one entry per document. -/
theorem entriesFrom_length {α : Type} :
    ∀ (docs : List (String × List α)) (base : Nat),
      (entriesFrom base docs).length = docs.length := by
  intro docs
  induction docs with
  | nil => intro base; rfl
  | cons d ds ih => intro base; simp [entriesFrom, ih]

/-- Positional description of `entriesFrom`: entry `i` carries the `i`-th
document's key and length, `start = base` plus the lengths before it, and
`end = start + len - 1`. -/
theorem entriesFrom_getD {α : Type} :
    ∀ (docs : List (String × List α)) (base i : Nat), i < docs.length →
      (entriesFrom base docs).getD i dfltEntry =
        ((docs.getD i dfltDoc).1,
          ⟨(docs.getD i dfltDoc).2.length,
            base + ((docs.map fun d => d.2.length).take i).sum,
            ((base + ((docs.map fun d => d.2.length).take i).sum +
                (docs.getD i dfltDoc).2.length : Nat) : Int) - 1⟩) := by
  intro docs
  induction docs with
  | nil => intro base i h; simp at h
  | cons d ds ih =>
      intro base i h
      cases i with
      | zero => simp [entriesFrom]
      | succ i =>
          simp only [entriesFrom, List.getD_cons_succ, List.map_cons,
            List.take_succ_cons, List.sum_cons]
          rw [ih (base + d.2.length) i (by simpa using h)]
          simp [Nat.add_assoc]

/-- The ranges of `entriesFrom` cover exactly `[base, base + total - 1]`. -/
theorem entriesFrom_cover {α : Type} :
    ∀ (docs : List (String × List α)) (base : Nat) (g : Int),
      (∃ e ∈ entriesFrom base docs, ((e.2.start : Int) ≤ g ∧ g ≤ e.2.end_)) ↔
        ((base : Int) ≤ g ∧
          g < (base : Int) + (((docs.map fun d => d.2.length).sum : Nat) : Int)) := by
  intro docs
  induction docs with
  | nil =>
      intro base g
      simp [entriesFrom]
  | cons d ds ih =>
      intro base g
      simp only [List.map_cons, List.sum_cons]
      constructor
      · rintro ⟨e, he, h1, h2⟩
        rcases List.mem_cons.1 he with rfl | he'
        · have h1' : (base : Int) ≤ g := h1
          have h2' : g ≤ ((base + d.2.length : Nat) : Int) - 1 := h2
          omega
        · have h3 := (ih (base + d.2.length) g).1 ⟨e, he', h1, h2⟩
          omega
      · intro hg
        by_cases hcase : g ≤ ((base + d.2.length : Nat) : Int) - 1
        · exact ⟨(d.1, ⟨d.2.length, base,
            ((base + d.2.length : Nat) : Int) - 1⟩),
            List.mem_cons_self _ _, hg.1, hcase⟩
        · obtain ⟨e, he, h1, h2⟩ := (ih (base + d.2.length) g).2 (by omega)
          exact ⟨e, List.mem_cons_of_mem _ he, h1, h2⟩

/-- Two distinct `entriesFrom` ranges never contain the same id. -/
theorem entriesFrom_disjoint {α : Type} (docs : List (String × List α))
    (base : Nat) (i j : Nat) (hi : i < docs.length) (hj : j < docs.length)
    (g : Int)
    (h1 : (((entriesFrom base docs).getD i dfltEntry).2.start : Int) ≤ g)
    (h2 : g ≤ ((entriesFrom base docs).getD i dfltEntry).2.end_)
    (h3 : (((entriesFrom base docs).getD j dfltEntry).2.start : Int) ≤ g)
    (h4 : g ≤ ((entriesFrom base docs).getD j dfltEntry).2.end_) : i = j := by
  have key : ∀ a b : Nat, a < docs.length → b < docs.length → a < b →
      g ≤ ((entriesFrom base docs).getD a dfltEntry).2.end_ →
      (((entriesFrom base docs).getD b dfltEntry).2.start : Int) ≤ g → False := by
    intro a b ha hb hab hga hgb
    rw [entriesFrom_getD docs base a ha] at hga
    rw [entriesFrom_getD docs base b hb] at hgb
    have hga' : g ≤ ((base + ((docs.map fun d => d.2.length).take a).sum +
        (docs.getD a dfltDoc).2.length : Nat) : Int) - 1 := hga
    have hgb' : ((base + ((docs.map fun d => d.2.length).take b).sum : Nat) :
        Int) ≤ g := hgb
    have hs : ((docs.map fun d => d.2.length).take a).sum +
        (docs.getD a dfltDoc).2.length ≤
        ((docs.map fun d => d.2.length).take b).sum := by
      rw [← lens_getD docs a ha, ← sum_take_succ_getD _ a (by simpa using ha)]
      exact take_sum_mono _ hab
    omega
  rcases Nat.lt_trichotomy i j with hij | hij | hij
  · exact absurd (key i j hi hj hij h2 h3) not_false
  · exact hij
  · exact absurd (key j i hj hi hij h4 h1) not_false

/-- Claim C5: one indexing pass assigns each document
`start = (lengths before it).sum` and `end = start + len - 1` (so ranges are
contiguous and gap-free in iteration order), the vector array's final length
equals the total of the lengths, distinct documents' ranges are disjoint, and
the union of all ranges is exactly `[0, total - 1]`. -/
theorem C5_global_indexing {α : Type} (docs : List (String × List α)) :
    (globalIndexingLoop docs).1.length = (docs.map fun d => d.2.length).sum ∧
    (globalIndexingLoop docs).2.2.length = docs.length ∧
    (∀ i, i < docs.length →
      ((globalIndexingLoop docs).2.2.getD i dfltEntry).1 =
        (docs.getD i dfltDoc).1 ∧
      ((globalIndexingLoop docs).2.2.getD i dfltEntry).2.len =
        (docs.getD i dfltDoc).2.length ∧
      ((globalIndexingLoop docs).2.2.getD i dfltEntry).2.start =
        ((docs.map fun d => d.2.length).take i).sum ∧
      ((globalIndexingLoop docs).2.2.getD i dfltEntry).2.end_ =
        ((((docs.map fun d => d.2.length).take i).sum +
          (docs.getD i dfltDoc).2.length : Nat) : Int) - 1) ∧
    (∀ i j, i < docs.length → j < docs.length → ∀ g : Int,
      (((globalIndexingLoop docs).2.2.getD i dfltEntry).2.start : Int) ≤ g →
      g ≤ ((globalIndexingLoop docs).2.2.getD i dfltEntry).2.end_ →
      (((globalIndexingLoop docs).2.2.getD j dfltEntry).2.start : Int) ≤ g →
      g ≤ ((globalIndexingLoop docs).2.2.getD j dfltEntry).2.end_ → i = j) ∧
    (∀ g : Int,
      (∃ e ∈ (globalIndexingLoop docs).2.2,
          ((e.2.start : Int) ≤ g ∧ g ≤ e.2.end_)) ↔
        (0 ≤ g ∧ g ≤ (((docs.map fun d => d.2.length).sum : Nat) : Int) - 1)) := by
  have hspec := globalLoop_spec docs [] [] []
  have hent : (globalIndexingLoop docs).2.2 = entriesFrom 0 docs := by
    simpa [globalIndexingLoop] using hspec.1
  refine ⟨?_, ?_, ?_, ?_, ?_⟩
  · simpa [globalIndexingLoop] using hspec.2
  · rw [hent, entriesFrom_length]
  · intro i hi
    rw [hent, entriesFrom_getD docs 0 i hi]
    refine ⟨rfl, rfl, ?_, ?_⟩
    · show 0 + ((docs.map fun d => d.2.length).take i).sum =
        ((docs.map fun d => d.2.length).take i).sum
      omega
    · show ((0 + ((docs.map fun d => d.2.length).take i).sum +
          (docs.getD i dfltDoc).2.length : Nat) : Int) - 1 =
        ((((docs.map fun d => d.2.length).take i).sum +
          (docs.getD i dfltDoc).2.length : Nat) : Int) - 1
      omega
  · intro i j hi hj g h1 h2 h3 h4
    rw [hent] at h1 h2 h3 h4
    exact entriesFrom_disjoint docs 0 i j hi hj g h1 h2 h3 h4
  · intro g
    rw [hent, entriesFrom_cover docs 0 g]
    omega

/-- Claim C5 witness: for vector counts `[3, 5, 2]` in that order the ranges
are `[0,2]`, `[3,7]`, `[8,9]` and the total is `10`. -/
theorem C5_global_indexing_witness :
    (globalIndexingLoop docsC5).1.length = 10 ∧
    ((globalIndexingLoop docsC5).2.2.getD 0 dfltEntry).2.start = 0 ∧
    ((globalIndexingLoop docsC5).2.2.getD 0 dfltEntry).2.end_ = 2 ∧
    ((globalIndexingLoop docsC5).2.2.getD 1 dfltEntry).2.start = 3 ∧
    ((globalIndexingLoop docsC5).2.2.getD 1 dfltEntry).2.end_ = 7 ∧
    ((globalIndexingLoop docsC5).2.2.getD 2 dfltEntry).2.start = 8 ∧
    ((globalIndexingLoop docsC5).2.2.getD 2 dfltEntry).2.end_ = 9 := by
  have h := C5_global_indexing docsC5
  refine ⟨h.1.trans (by decide), ?_, ?_, ?_, ?_, ?_, ?_⟩
  · exact ((h.2.2.1 0 (by decide)).2.2.1).trans (by decide)
  · exact ((h.2.2.1 0 (by decide)).2.2.2).trans (by decide)
  · exact ((h.2.2.1 1 (by decide)).2.2.1).trans (by decide)
  · exact ((h.2.2.1 1 (by decide)).2.2.2).trans (by decide)
  · exact ((h.2.2.1 2 (by decide)).2.2.1).trans (by decide)
  · exact ((h.2.2.1 2 (by decide)).2.2.2).trans (by decide)

end OpenRAG
